import Mathlib

/-!
# GoLearn Adaptive Retention Engine — verification development

Shallow embedding of the Adaptive Retention Engine of the GoLearn study
platform: the Leitner-style Scheduler, the Due-Set Resolver, the
asynchronous Evaluation Pipeline, and the Quiz Session Controller
implemented by the Next.js quiz page, together with the dashboard page's
session-deletion handler.

The repository ships the frontend TypeScript sources; the backend service
(FastAPI app referenced by the Dockerfile) is not part of the source tree,
so the Scheduler, the Evaluation Pipeline's store and the Due-Set Resolver
are modelled from the specification, while the quiz page, the API client
and the dashboard page are embedded from their TypeScript sources.
-/

namespace GoLearn

/-- Verdict of the external judgment collaborator. -/
inductive Verdict where
  | correct
  | incorrect
deriving DecidableEq, Repr

/-- Modelled from the spec: the maximum Leitner box (`MAX_BOX`); the spec
bounds `box` above by a fixed max box count, with box 5 as the largest tier
mentioned.  The backend scheduler source is not in the tree. -/
def MAX_BOX : Nat := 5

/-- Modelled from the spec: a reviewable Item's scheduling state.  Timestamps
and stability are naturals (stability in abstract units; a positive float in
the backend). -/
structure Item where
  box : Nat
  stability : Nat
  difficulty : Nat
  due_at : Nat
deriving DecidableEq, Repr

/-- Modelled from the spec: the short re-exposure interval (minutes-to-hours,
not days) used after an incorrect answer; a policy constant of the missing
backend scheduler. -/
def SHORT_INTERVAL : Nat := 30

/-- Modelled from the spec: the multiplicative stability growth factor on a
correct answer; it decreases as difficulty increases (harder items gain
stability more slowly) and is always at least 2. -/
def growthFactor (difficulty : Nat) : Nat := 2 + 8 / (1 + difficulty)

/-- Modelled from the spec: the review interval, growing super-linearly
(here exponentially) with the box and proportionally with stability, so
mastered items are reviewed exponentially less often. -/
def interval (box stability : Nat) : Nat := stability * 4 ^ box

/-- Modelled from the spec: the Scheduler's pure transition function
`transition(item, verdict) -> (new_box, new_stability, new_difficulty,
new_due_at)`.  On `correct` the box is promoted to `min (box+1) MAX_BOX` and
stability grows multiplicatively; on `incorrect` the box demotes to 1
unconditionally, stability decreases, difficulty increases and the item is
re-exposed after `SHORT_INTERVAL`. -/
def transition (it : Item) (v : Verdict) (now : Nat) : Item :=
  match v with
  | .correct =>
      let nb := min (it.box + 1) MAX_BOX
      let ns := it.stability * growthFactor it.difficulty
      { box := nb, stability := ns, difficulty := it.difficulty,
        due_at := now + interval nb ns }
  | .incorrect =>
      { box := 1, stability := max 1 (it.stability / 2),
        difficulty := it.difficulty + 1, due_at := now + SHORT_INTERVAL }

/-! ## Quiz page (frontend Quiz Session Controller), from
`src/frontend/src/app/quiz/[id]/page.tsx` -/

/-- A question as delivered to the quiz page (the fields its control logic
reads): `question_id`, the optional `user_answer` recorded by a previous
sitting, and the optional originating `session_id` (set in global mode). -/
structure Question where
  question_id : String
  user_answer : Option String
  session_id : Option String
deriving DecidableEq, Repr

/-- An entry of the page's `submittedAnswers` local state. -/
structure SubmittedAnswer where
  questionId : String
  answer : String
  sessionId : String
deriving DecidableEq, Repr

/-- The quiz page state touched by `initializeQuiz` and `submitAnswer`:
`questions`, `currentIndex`, the answer text box, `submittedAnswers` and the
`allAnswered` flag. -/
structure QuizState where
  questions : List Question
  currentIndex : Nat
  answer : String
  submittedAnswers : List SubmittedAnswer
  allAnswered : Bool
deriving DecidableEq, Repr

/-- JavaScript truthiness of `q.user_answer`: an absent or empty string does
not count as an answer (`data.filter(q => q.user_answer)`). -/
def hasUserAnswer (q : Question) : Bool := q.user_answer.getD "" ≠ ""

/-- JavaScript `q.session_id || sessionId`: fall back to the page's session
id when `session_id` is absent or empty. -/
def sessionOr (o : Option String) (d : String) : String :=
  match o with
  | none => d
  | some s => if s = "" then d else s

/-- The page's `initializeQuiz(data)`: returns `none` on an empty question
list (the early return); otherwise syncs `submittedAnswers` from the
questions carrying a `user_answer`, sets `allAnswered` when every question is
answered, and else places `currentIndex` at the first unanswered question
(`data.findIndex(q => !q.user_answer)`).  The answered items synced into
`submittedAnswers` are split out as `answeredItemsOf`. -/
def answeredItemsOf (pageSessionId : String) (data : List Question) :
    List SubmittedAnswer :=
  (data.filter hasUserAnswer).map
    (fun q => ⟨q.question_id, q.user_answer.getD "",
               sessionOr q.session_id pageSessionId⟩)

def initializeQuiz (pageSessionId : String) (data : List Question) :
    Option QuizState :=
  if data = [] then none
  else if (answeredItemsOf pageSessionId data).length = data.length then
    some { questions := data, currentIndex := 0, answer := "",
           submittedAnswers := answeredItemsOf pageSessionId data,
           allAnswered := true }
  else
    some { questions := data,
           currentIndex := data.findIdx (fun q => !hasUserAnswer q),
           answer := "",
           submittedAnswers := answeredItemsOf pageSessionId data,
           allAnswered := false }

/-- JavaScript `!answer.trim()`: the submission guard fires when the answer
text is empty or all-whitespace. -/
def isBlank (s : String) : Bool := s.toList.all Char.isWhitespace

/-- Outcome of the fire-and-forget POST issued by `submitAnswer`
(`api.submitAnswerAsync(...).catch(console.error)`); the page discards it
either way. -/
inductive PostOutcome where
  | accepted
  | rejected
deriving DecidableEq, Repr

/-- The page's `submitAnswer()`: guarded by a token and a non-blank answer,
it fires the POST without awaiting it, appends the answer to
`submittedAnswers`, then either advances `currentIndex` (clearing the text
box) or, on the last question, sets `allAnswered`.  The submit control is
only rendered when `questions[currentIndex]` exists; an out-of-range index
leaves the state unchanged in this embedding. -/
def submitAnswer (pageSessionId : String) (hasToken : Bool)
    (_post : PostOutcome) (st : QuizState) : QuizState :=
  if hasToken = false ∨ isBlank st.answer = true then st
  else
    match st.questions[st.currentIndex]? with
    | none => st
    | some currentQuestion =>
      let newSubmitted := st.submittedAnswers ++
        [⟨currentQuestion.question_id, st.answer,
          sessionOr currentQuestion.session_id pageSessionId⟩]
      if st.currentIndex < st.questions.length - 1 then
        { st with currentIndex := st.currentIndex + 1, answer := "",
                  submittedAnswers := newSubmitted }
      else
        { st with allAnswered := true, submittedAnswers := newSubmitted }

/-- The sitting cursor: the position of the next question to ask, with the
all-answered state read as the position one past the last question. -/
def cursorPos (st : QuizState) : Nat :=
  if st.allAnswered then st.questions.length else st.currentIndex

/-- The answer textarea's onChange handler. -/
def setAnswer (st : QuizState) (a : String) : QuizState := { st with answer := a }

/-! ## Evaluation Pipeline (backend; modelled from the spec) -/

/-- Modelled from the spec: the SubmissionRecord status machine
`pending → evaluating → {evaluated | failed}`.  The backend pipeline source
is not in the tree; only the API client declares its endpoints. -/
inductive SubStatus where
  | pending
  | evaluating
  | evaluated
  | failed
deriving DecidableEq, Repr

/-- Modelled from the spec: a SubmissionRecord — one attempt at answering an
item within a sitting, with a verdict that stays `none` until evaluated. -/
structure SubRec where
  submission_id : Nat
  item_id : Nat
  sitting_id : Nat
  raw_answer : String
  status : SubStatus
  verdict : Option Verdict
deriving DecidableEq, Repr

/-- Modelled from the spec: the Evaluation Pipeline's persistent state — the
submission records plus the log of Scheduler commits, one `(item_id,
sitting_id)` entry per transition applied to the Item Store. -/
structure PipeState where
  recs : List SubRec
  commits : List (Nat × Nat)
deriving DecidableEq, Repr

/-- Does a non-failed SubmissionRecord exist for `(item_id, sitting_id)`? -/
def hasNonFailed (s : PipeState) (i t : Nat) : Bool :=
  s.recs.any (fun r => decide (r.item_id = i ∧ r.sitting_id = t ∧ r.status ≠ .failed))

/-- Modelled from the spec: `submit(item_id, sitting_id, answer)` validates
that no non-failed record exists for the pair (otherwise the call is a
rejected duplicate and a no-op), writes a `pending` record and returns
immediately; judgment runs later in the background worker. -/
def submit (s : PipeState) (i t : Nat) (a : String) : PipeState :=
  if hasNonFailed s i t then s
  else { s with recs := ⟨s.recs.length, i, t, a, .pending, none⟩ :: s.recs }

/-- Modelled from the spec: the body of `POST /submit` — the response handed
back to the caller before any judgment work runs.  `judge` is the external
judgment collaborator; the response never consults it. -/
def submitResponse (_judge : String → Verdict) (s : PipeState) (i t : Nat)
    (a : String) : String × PipeState :=
  if hasNonFailed s i t then ("duplicate", s) else ("accepted", submit s i t a)

/-- Modelled from the spec: one step of the pipeline — a client `submit`, or
the background worker picking up a pending record, finishing it with a
verdict (atomically logging the Scheduler commit), or marking it failed
after judgment failure. -/
inductive Step : PipeState → PipeState → Prop where
  | submit (s : PipeState) (i t : Nat) (a : String) :
      Step s (GoLearn.submit s i t a)
  | pickUp (l₁ l₂ : List SubRec) (c : List (Nat × Nat)) (r : SubRec)
      (h : r.status = .pending) :
      Step ⟨l₁ ++ r :: l₂, c⟩ ⟨l₁ ++ { r with status := .evaluating } :: l₂, c⟩
  | finishOk (l₁ l₂ : List SubRec) (c : List (Nat × Nat)) (r : SubRec)
      (v : Verdict) (h : r.status = .evaluating) :
      Step ⟨l₁ ++ r :: l₂, c⟩
        ⟨l₁ ++ { r with status := .evaluated, verdict := some v } :: l₂,
         (r.item_id, r.sitting_id) :: c⟩
  | finishFail (l₁ l₂ : List SubRec) (c : List (Nat × Nat)) (r : SubRec)
      (h : r.status = .evaluating) :
      Step ⟨l₁ ++ r :: l₂, c⟩ ⟨l₁ ++ { r with status := .failed } :: l₂, c⟩

/-- Pipeline states reachable from the empty store. -/
inductive Reach : PipeState → Prop where
  | init : Reach ⟨[], []⟩
  | step {s s' : PipeState} : Reach s → Step s s' → Reach s'

/-- Number of non-failed records for a pair. -/
def nonFailedCount (s : PipeState) (i t : Nat) : Nat :=
  s.recs.countP
    (fun r => decide (r.item_id = i ∧ r.sitting_id = t ∧ r.status ≠ .failed))

/-- Number of evaluated records for a pair. -/
def evaluatedCount (s : PipeState) (i t : Nat) : Nat :=
  s.recs.countP
    (fun r => decide (r.item_id = i ∧ r.sitting_id = t ∧ r.status = .evaluated))

/-- Number of Scheduler commits logged for a pair. -/
def commitCount (s : PipeState) (i t : Nat) : Nat := s.commits.count (i, t)

/-- The pipeline's at-most-once invariant: per `(item_id, sitting_id)` at
most one non-failed record exists, and the Scheduler commits logged for the
pair are exactly its evaluated records. -/
def PipeInv (s : PipeState) : Prop :=
  ∀ i t, nonFailedCount s i t ≤ 1 ∧ commitCount s i t = evaluatedCount s i t

/-- Evaluated records always carry a verdict (judgment result and status are
written atomically in the worker). -/
def VerdictInv (s : PipeState) : Prop :=
  ∀ r ∈ s.recs, r.status = .evaluated → r.verdict ≠ none

/-- A concrete pipeline state: one record evaluated and committed, reachable
by submit → pickUp → finishOk. -/
def examplePipeState : PipeState :=
  ⟨[⟨0, 1, 2, "x", .evaluated, some .correct⟩], [(1, 2)]⟩

/-- A concrete sitting (id 7) of five fully submitted items: four records
evaluated, one judgment still pending. -/
def fiveItemSitting : PipeState :=
  ⟨[⟨0, 1, 7, "a1", .evaluated, some .correct⟩,
    ⟨1, 2, 7, "a2", .evaluated, some .incorrect⟩,
    ⟨2, 3, 7, "a3", .evaluated, some .correct⟩,
    ⟨3, 4, 7, "a4", .evaluated, some .correct⟩,
    ⟨4, 5, 7, "a5", .pending, none⟩],
   [(1, 7), (2, 7), (3, 7), (4, 7)]⟩

/-- Records of one sitting. -/
def sittingRecs (s : PipeState) (t : Nat) : List SubRec :=
  s.recs.filter (fun r => decide (r.sitting_id = t))

/-- Modelled from the spec: the `getResults(sitting_id)` view — evaluated
count, pending count (records still awaiting judgment) and the per-item
verdicts. -/
structure ResultsView where
  evaluated_count : Nat
  pending_count : Nat
  verdicts : List (Nat × Option Verdict)
deriving DecidableEq, Repr

/-- Modelled from the spec: `getResults(sitting_id)`. -/
def getResults (s : PipeState) (t : Nat) : ResultsView :=
  { evaluated_count :=
      ((sittingRecs s t).filter (fun r => decide (r.status = .evaluated))).length
    pending_count :=
      ((sittingRecs s t).filter
        (fun r => decide (r.status = .pending ∨ r.status = .evaluating))).length
    verdicts := (sittingRecs s t).map (fun r => (r.item_id, r.verdict)) }

/-- Quiz Session Controller phases (spec §4.4). -/
inductive SittingPhase where
  | in_progress
  | awaiting_evaluation
  | completed
deriving DecidableEq, Repr

/-- A record in a terminal state. -/
def isTerminal (r : SubRec) : Bool :=
  decide (r.status = .evaluated ∨ r.status = .failed)

/-- Modelled from the spec: the completion phase of a sitting over the item
ids it references — once every item has a submission the sitting is
`awaiting_evaluation` until every record is terminal, then `completed`. -/
def completionPhase (itemIds : List Nat) (s : PipeState) (t : Nat) :
    SittingPhase :=
  if itemIds.all (fun i => (sittingRecs s t).any (fun r => decide (r.item_id = i))) then
    if (sittingRecs s t).all isTerminal then .completed else .awaiting_evaluation
  else .in_progress

/-! ## Due-Set Resolver (backend; modelled from the spec) -/

/-- Modelled from the spec: an Item as the Due-Set Resolver reads it. -/
structure RItem where
  item_id : Nat
  pool_id : Nat
  box : Nat
  due_at : Nat
deriving DecidableEq, Repr

/-- Modelled from the spec: a pool (study session) and its owner. -/
structure Pool where
  pool_id : Nat
  owner_id : Nat
deriving DecidableEq, Repr

/-- The due ordering: `due_at` ascending, then `box` ascending (most overdue
and least mastered first). -/
def DueLE (a b : RItem) : Prop :=
  a.due_at < b.due_at ∨ (a.due_at = b.due_at ∧ a.box ≤ b.box)

instance : DecidableRel DueLE := fun a b => by unfold DueLE; infer_instance

instance : IsTotal RItem DueLE := ⟨by intro a b; unfold DueLE; omega⟩

instance : IsTrans RItem DueLE := ⟨by intro a b c; unfold DueLE; omega⟩

/-- An item is due when `due_at ≤ now`. -/
def isDue (now : Nat) (it : RItem) : Bool := decide (it.due_at ≤ now)

/-- Modelled from the spec: `duePerPool(pool_id)` — the due items of one
pool, ordered by the due ordering. -/
def duePerPool (store : List RItem) (now p : Nat) : List RItem :=
  List.insertionSort DueLE
    ((store.filter (isDue now)).filter (fun it => decide (it.pool_id = p)))

/-- The pools owned by `owner`. -/
def poolsOf (pools : List Pool) (owner : Nat) : List Nat :=
  (pools.filter (fun q => decide (q.owner_id = owner))).map Pool.pool_id

/-- Modelled from the spec: `dueGlobal(owner_id)` — the union of the owner's
pools' due items, sorted by the same key, each annotated with its
originating pool. -/
def dueGlobal (pools : List Pool) (store : List RItem) (now owner : Nat) :
    List (Nat × RItem) :=
  (List.insertionSort DueLE
      ((store.filter (isDue now)).filter
        (fun it => (poolsOf pools owner).contains it.pool_id))).map
    (fun it => (it.pool_id, it))

/-! ## Results rendering and dashboard, from the frontend sources -/

/-- Verdict cell of the quiz results page (`page.tsx`): a result whose
`evaluation_status` is `"pending"` shows the Evaluating spinner; any other
status shows `"Correct"` when `correct` is `true` and `"Incorrect"`
otherwise — JavaScript truthiness sends a `null` verdict to the
`"Incorrect"` label. -/
def renderVerdictLabel (evaluation_status : String) (correct : Option Bool) :
    String :=
  if evaluation_status = "pending" then "Evaluating"
  else if correct = some true then "Correct" else "Incorrect"

/-- Identifiers in scope inside the dashboard page component of
`providers.tsx` where the body of `deleteSession` executes: its hooks, state
pairs and the functions declared in the component, plus the module-level
`api` import. -/
def dashboardPageIdentifiers : List String :=
  ["user", "token", "loading", "signOut", "router",
   "sessions", "setSessions", "loadingSessions", "setLoadingSessions",
   "loadingProgress", "setLoadingProgress", "newTitle", "setNewTitle",
   "enableSpacedRepetition", "setEnableSpacedRepetition",
   "creating", "setCreating", "showModal", "setShowModal",
   "progressData", "setProgressData", "globalProgress", "setGlobalProgress",
   "loadSessions", "loadProgressData", "deleteSession", "createSession",
   "getStatusBadge", "formatDate", "api"]

/-- Outcome of the dashboard's `deleteSession(sessionId)` handler; the flag
on `failureAlert` records whether `api.deleteSession` had already succeeded
on the server when the catch branch showed the failure alert. -/
inductive DeleteOutcome where
  | notRun
  | refreshed
  | failureAlert (serverDeleted : Bool)
deriving DecidableEq, Repr

/-- The dashboard's `deleteSession`: bail without a token or without the
confirm dialog; call `api.deleteSession`; on success call
`loadDashboardData()` — resolved here against the identifiers actually in
scope, so an unresolved name throws a ReferenceError landing in the same
catch branch as an API failure, which alerts "Failed to delete session". -/
def deleteSessionRun (hasToken confirmed serverDeleteOk : Bool) :
    DeleteOutcome :=
  if hasToken = false then .notRun
  else if confirmed = false then .notRun
  else if serverDeleteOk = false then .failureAlert false
  else if dashboardPageIdentifiers.contains "loadDashboardData" then .refreshed
  else .failureAlert true

/-! ## Theorems -/

/-- C1: for every item and every judged verdict, the Scheduler transition
sets the new box to `min (old_box + 1) MAX_BOX` when the verdict is correct,
and to 1 unconditionally when the verdict is incorrect. -/
theorem C1_scheduler_box_transition (it : Item) (now : Nat) :
    (transition it .correct now).box = min (it.box + 1) MAX_BOX ∧
    (transition it .incorrect now).box = 1 :=
  ⟨rfl, rfl⟩

/-- C8: after any Scheduler transition the new `due_at` is strictly greater
than the commit timestamp `now`, and for a fixed positive stability the
review interval — hence the resulting `due_at` — is strictly increasing in
the box value. -/
theorem C8_due_strictly_future_and_interval_increasing
    (it : Item) (v : Verdict) (now : Nat) (hstab : 0 < it.stability) :
    now < (transition it v now).due_at ∧
    (∀ s b₁ b₂, 0 < s → b₁ < b₂ →
      interval b₁ s < interval b₂ s ∧
      now + interval b₁ s < now + interval b₂ s) := by
  constructor
  · cases v with
    | correct =>
        have hg : 0 < growthFactor it.difficulty :=
          Nat.lt_of_lt_of_le (by norm_num) (Nat.le_add_right 2 _)
        have hns : 0 < it.stability * growthFactor it.difficulty :=
          Nat.mul_pos hstab hg
        have hpos : 0 < interval (min (it.box + 1) MAX_BOX)
            (it.stability * growthFactor it.difficulty) :=
          Nat.mul_pos hns (Nat.pos_pow_of_pos _ (by norm_num))
        have := Nat.add_lt_add_left hpos now
        simpa [transition] using this
    | incorrect =>
        simp [transition, SHORT_INTERVAL]
  · intro s b₁ b₂ hs hb
    have hpow : 4 ^ b₁ < 4 ^ b₂ := Nat.pow_lt_pow_right (by norm_num) hb
    have hmul : s * 4 ^ b₁ < s * 4 ^ b₂ := Nat.mul_lt_mul_of_pos_left hpow hs
    exact ⟨hmul, by simpa [interval] using Nat.add_lt_add_left hmul now⟩

/-- C8 witness: the theorem applied to a concrete item of positive
stability at a concrete commit timestamp. -/
theorem C8_due_strictly_future_and_interval_increasing_witness :
    (0 : Nat) < (Item.mk 3 10 2 0).stability ∧
    (100 < (transition (Item.mk 3 10 2 0) .correct 100).due_at ∧
      (∀ s b₁ b₂, 0 < s → b₁ < b₂ →
        interval b₁ s < interval b₂ s ∧
        100 + interval b₁ s < 100 + interval b₂ s)) :=
  ⟨by decide,
   C8_due_strictly_future_and_interval_increasing (Item.mk 3 10 2 0)
     .correct 100 (by decide)⟩

/-- Helper: `findIdx` over an append whose left part refutes the predicate
everywhere lands `l₁.length` positions past the left part. -/
theorem findIdx_append_of_forall_false {α : Type} (p : α → Bool)
    (l₁ l₂ : List α) (h : ∀ x ∈ l₁, p x = false) :
    (l₁ ++ l₂).findIdx p = l₁.length + l₂.findIdx p := by
  induction l₁ with
  | nil => simp
  | cons x xs ih =>
      have hx : p x = false := h x (List.mem_cons_self x xs)
      have hxs : ∀ y ∈ xs, p y = false :=
        fun y hy => h y (List.mem_cons_of_mem _ hy)
      rw [List.cons_append, List.findIdx_cons, hx, ih hxs]
      simp [Nat.add_comm, Nat.add_assoc, Nat.add_left_comm]

/-- C2 counterexample: a two-question sitting where only the second question
is answered (k = 1 terminal record, but not a prefix).  `initializeQuiz`
places the cursor at index 0, not at k = 1, and the already-answered second
question lies ahead of the cursor, so the linear flow re-asks it. -/
theorem C2_counterexample_nonprefix_resume :
    (List.filter hasUserAnswer
      [Question.mk "q0" none none, Question.mk "q1" (some "a") none]).length
      = 1 ∧
    (initializeQuiz "s"
      [Question.mk "q0" none none, Question.mk "q1" (some "a") none]).map
        QuizState.currentIndex = some 0 ∧
    ¬ ((initializeQuiz "s"
      [Question.mk "q0" none none, Question.mk "q1" (some "a") none]).map
        QuizState.currentIndex = some 1) ∧
    (initializeQuiz "s"
      [Question.mk "q0" none none, Question.mk "q1" (some "a") none]).map
        (fun st => List.contains (st.questions.drop st.currentIndex)
          (Question.mk "q1" (some "a") none)) = some true := by
  refine ⟨?_, ?_, ?_, ?_⟩ <;> decide

/-- C2 (amended): when the answered items form a prefix of length k of a
sitting that still has unanswered items, resuming places the cursor at
index k and every question asked from the cursor on is unanswered, so no
already-answered item is replayed; for a non-prefix pattern the cursor is
the first unanswered index and later answered items are re-asked. -/
theorem C2_resume_prefix_cursor (sid : String) (a b : List Question)
    (ha : ∀ q ∈ a, hasUserAnswer q = true)
    (hb : ∀ q ∈ b, hasUserAnswer q = false)
    (hbne : b ≠ []) :
    ∃ st, initializeQuiz sid (a ++ b) = some st ∧
      st.allAnswered = false ∧ st.currentIndex = a.length ∧
      ∀ q ∈ st.questions.drop st.currentIndex, hasUserAnswer q = false := by
  have hne : a ++ b ≠ [] := by
    intro h
    exact hbne (List.append_eq_nil.mp h).2
  have hfa : a.filter hasUserAnswer = a := List.filter_eq_self.mpr ha
  have hfb : b.filter hasUserAnswer = [] := by
    rw [List.filter_eq_nil_iff]
    intro q hq
    simp [hb q hq]
  have hlen : ((a ++ b).filter hasUserAnswer).length = a.length := by
    rw [List.filter_append, hfa, hfb]
    simp
  have hblen : 0 < b.length := List.length_pos.mpr hbne
  have hcond : ¬ ((answeredItemsOf sid (a ++ b)).length = (a ++ b).length) := by
    rw [answeredItemsOf, List.length_map, hlen, List.length_append]
    omega
  have hfind : (a ++ b).findIdx (fun q => !hasUserAnswer q) = a.length := by
    rw [findIdx_append_of_forall_false]
    · rcases b with _ | ⟨q, bs⟩
      · exact absurd rfl hbne
      · rw [List.findIdx_cons]
        simp [hb q (List.mem_cons_self q bs)]
    · intro x hx
      simp [ha x hx]
  have hinit : initializeQuiz sid (a ++ b) =
      some { questions := a ++ b,
             currentIndex := (a ++ b).findIdx (fun q => !hasUserAnswer q),
             answer := "",
             submittedAnswers := answeredItemsOf sid (a ++ b),
             allAnswered := false } := by
    unfold initializeQuiz
    rw [if_neg hne, if_neg hcond]
  refine ⟨_, hinit, rfl, hfind, ?_⟩
  intro q hq
  rw [hfind, List.drop_left] at hq
  exact hb q hq

/-- C2 witness: the amended theorem applied to a concrete sitting whose
single answered question is a prefix. -/
theorem C2_resume_prefix_cursor_witness :
    ∃ st, initializeQuiz "s"
        ([Question.mk "q0" (some "a") none] ++ [Question.mk "q1" none none])
        = some st ∧
      st.allAnswered = false ∧
      st.currentIndex = [Question.mk "q0" (some "a") none].length ∧
      ∀ q ∈ st.questions.drop st.currentIndex, hasUserAnswer q = false :=
  C2_resume_prefix_cursor "s" [Question.mk "q0" (some "a") none]
    [Question.mk "q1" none none] (by decide) (by decide) (by decide)

/-- Helper: under the submission guard (token present, non-blank answer, a
question under the cursor, sitting not yet finished), `submitAnswer`
advances the sitting cursor by exactly one position, for any POST
outcome. -/
theorem cursorPos_submitAnswer (sid : String) (post : PostOutcome)
    (st : QuizState) (hans : isBlank st.answer = false)
    (hidx : st.currentIndex < st.questions.length)
    (hnot : st.allAnswered = false) :
    cursorPos (submitAnswer sid true post st) = cursorPos st + 1 := by
  obtain ⟨q, hq⟩ : ∃ q, st.questions[st.currentIndex]? = some q :=
    ⟨_, List.getElem?_eq_getElem hidx⟩
  by_cases hlt : st.currentIndex < st.questions.length - 1
  · simp [submitAnswer, hans, hq, hlt, cursorPos, hnot]
  · simp [submitAnswer, hans, hq, hlt, cursorPos, hnot]
    omega

/-- C3: the Evaluation Pipeline's submit responds identically for any
external judgment function (it never waits on the judgment call), and the
quiz page's `submitAnswer` produces a state independent of the
fire-and-forget POST outcome while advancing the sitting cursor by exactly
one position immediately. -/
theorem C3_submit_nonblocking_cursor_advance
    (judge judge' : String → Verdict) (ps : PipeState) (i t : Nat)
    (ans : String) (sid : String) (post post' : PostOutcome) (st : QuizState)
    (hans : isBlank st.answer = false)
    (hidx : st.currentIndex < st.questions.length)
    (hnot : st.allAnswered = false) :
    submitResponse judge ps i t ans = submitResponse judge' ps i t ans ∧
    submitAnswer sid true post st = submitAnswer sid true post' st ∧
    cursorPos (submitAnswer sid true post st) = cursorPos st + 1 :=
  ⟨rfl, rfl, cursorPos_submitAnswer sid post st hans hidx hnot⟩

/-- C3 witness: the theorem applied to a concrete two-question sitting with
the cursor on the first question. -/
theorem C3_submit_nonblocking_cursor_advance_witness :
    isBlank (QuizState.mk
        [Question.mk "a" none none, Question.mk "b" none none]
        0 "42" [] false).answer = false ∧
    cursorPos (submitAnswer "s" true .accepted
      (QuizState.mk [Question.mk "a" none none, Question.mk "b" none none]
        0 "42" [] false))
      = cursorPos (QuizState.mk
          [Question.mk "a" none none, Question.mk "b" none none]
          0 "42" [] false) + 1 :=
  ⟨by decide,
   (C3_submit_nonblocking_cursor_advance (fun _ => .correct)
      (fun _ => .incorrect) (PipeState.mk [] []) 0 0 "x" "s"
      .accepted .rejected
      (QuizState.mk [Question.mk "a" none none, Question.mk "b" none none]
        0 "42" [] false)
      (by decide) (by decide) rfl).2.2⟩

/-- C9: a rejected fire-and-forget POST is only logged — the state update of
`submitAnswer` is the same as for an accepted POST, the answer is still
appended to `submittedAnswers`, the cursor still advances, and a concrete
two-question sitting whose every POST is rejected still reaches the
all-answered state with both answers recorded only locally. -/
theorem C9_rejected_submission_still_advances
    (sid : String) (st : QuizState) (q : Question)
    (hans : isBlank st.answer = false)
    (hq : st.questions[st.currentIndex]? = some q)
    (hnot : st.allAnswered = false) :
    ((submitAnswer sid true .rejected st).submittedAnswers
      = st.submittedAnswers ++
        [⟨q.question_id, st.answer, sessionOr q.session_id sid⟩]) ∧
    submitAnswer sid true .rejected st = submitAnswer sid true .accepted st ∧
    cursorPos (submitAnswer sid true .rejected st) = cursorPos st + 1 ∧
    ((submitAnswer "s" true .rejected
        (setAnswer (submitAnswer "s" true .rejected
          (QuizState.mk
            [Question.mk "a" none none, Question.mk "b" none none]
            0 "x" [] false)) "y")).allAnswered = true ∧
     (submitAnswer "s" true .rejected
        (setAnswer (submitAnswer "s" true .rejected
          (QuizState.mk
            [Question.mk "a" none none, Question.mk "b" none none]
            0 "x" [] false)) "y")).submittedAnswers.length = 2) := by
  have hidx : st.currentIndex < st.questions.length := by
    by_contra hc
    rw [List.getElem?_eq_none (by omega)] at hq
    cases hq
  refine ⟨?_, rfl, cursorPos_submitAnswer sid .rejected st hans hidx hnot, ?_, ?_⟩
  · by_cases hlt : st.currentIndex < st.questions.length - 1
    · simp [submitAnswer, hans, hq, hlt]
    · simp [submitAnswer, hans, hq, hlt]
  · decide
  · decide

/-- C9 witness: the theorem applied to a concrete sitting state. -/
theorem C9_rejected_submission_still_advances_witness :
    isBlank (QuizState.mk
        [Question.mk "a" none none, Question.mk "b" none none]
        0 "x" [] false).answer = false ∧
    (submitAnswer "s" true .rejected
        (QuizState.mk [Question.mk "a" none none, Question.mk "b" none none]
          0 "x" [] false)).submittedAnswers
      = [] ++ [⟨"a", "x", "s"⟩] :=
  ⟨by decide,
   (C9_rejected_submission_still_advances "s"
      (QuizState.mk [Question.mk "a" none none, Question.mk "b" none none]
        0 "x" [] false)
      (Question.mk "a" none none) (by decide) (by decide) rfl).1⟩

/-- C7: the quiz results page renders a permanently failed evaluation
(`evaluation_status = "failed"`, `correct = null`) with the same
`"Incorrect"` label as a genuinely wrong answer, not as a status distinct
from correct and incorrect — the code contradicts the spec's "evaluation
unavailable" surfacing requirement. -/
theorem C7_failed_evaluation_rendered_as_incorrect :
    renderVerdictLabel "failed" none = "Incorrect" ∧
    renderVerdictLabel "failed" none
      = renderVerdictLabel "completed" (some false) ∧
    renderVerdictLabel "failed" none ≠ "evaluation unavailable" := by
  refine ⟨rfl, rfl, ?_⟩
  decide

/-- C10: `deleteSession` in the dashboard page of `providers.tsx` calls
`loadDashboardData()`, an identifier defined nowhere in the file, so after a
successful server-side deletion the refresh throws a ReferenceError and the
user is shown the failure alert even though the session was deleted. -/
theorem C10_delete_session_refresh_undefined :
    dashboardPageIdentifiers.contains "loadDashboardData" = false ∧
    deleteSessionRun true true true = .failureAlert true := by
  refine ⟨?_, ?_⟩ <;> decide

/-- Helper: a false `hasNonFailed` check means a zero non-failed count. -/
theorem nonFailedCount_eq_zero_of_not_hasNonFailed {s : PipeState} {i t : Nat}
    (h : hasNonFailed s i t = false) : nonFailedCount s i t = 0 := by
  rw [nonFailedCount, List.countP_eq_zero]
  intro r hr
  exact List.any_eq_false.mp h r hr

/-- Helper: every pipeline step preserves the at-most-once invariant. -/
theorem pipeInv_step {s s' : PipeState} (hs : PipeInv s) (hstep : Step s s') :
    PipeInv s' := by
  cases hstep with
  | submit s₀ i' t' a =>
      by_cases hdup : hasNonFailed s i' t' = true
      · simpa [submit, hdup] using hs
      · replace hdup : hasNonFailed s i' t' = false := by
          simpa using hdup
        intro i t
        obtain ⟨h1, h2⟩ := hs i t
        by_cases hi : i' = i
        · by_cases ht : t' = t
          · subst hi; subst ht
            have hz : nonFailedCount s i' t' = 0 :=
              nonFailedCount_eq_zero_of_not_hasNonFailed hdup
            refine ⟨?_, ?_⟩
            · rw [nonFailedCount] at hz ⊢
              simp [submit, hdup, List.countP_cons, hz]
              intro r hr hri hrt
              have hfr := List.any_eq_false.mp hdup r hr
              simp [hri, hrt] at hfr
              exact hfr
            · rw [evaluatedCount] at h2 ⊢
              rw [commitCount] at h2 ⊢
              simpa [submit, hdup, List.countP_cons] using h2
          · refine ⟨?_, ?_⟩
            · rw [nonFailedCount] at h1 ⊢
              simpa [submit, hdup, List.countP_cons, ht] using h1
            · rw [evaluatedCount, commitCount] at h2 ⊢
              simpa [submit, hdup, List.countP_cons, ht] using h2
        · refine ⟨?_, ?_⟩
          · rw [nonFailedCount] at h1 ⊢
            simpa [submit, hdup, List.countP_cons, hi] using h1
          · rw [evaluatedCount, commitCount] at h2 ⊢
            simpa [submit, hdup, List.countP_cons, hi] using h2
  | pickUp l₁ l₂ c r hr =>
      intro i t
      obtain ⟨h1, h2⟩ := hs i t
      rw [nonFailedCount] at h1 ⊢
      rw [evaluatedCount, commitCount] at h2 ⊢
      simp only [List.countP_append, List.countP_cons] at h1 h2 ⊢
      simp only [hr] at h1 h2 ⊢
      refine ⟨?_, ?_⟩
      · simpa using h1
      · simpa using h2
  | finishOk l₁ l₂ c r v hr =>
      intro i t
      obtain ⟨h1, h2⟩ := hs i t
      rw [nonFailedCount] at h1 ⊢
      rw [evaluatedCount, commitCount] at h2 ⊢
      simp only [List.countP_append, List.countP_cons, List.count_cons] at h1 h2 ⊢
      simp only [hr] at h1 h2 ⊢
      by_cases hi : r.item_id = i
      · by_cases ht : r.sitting_id = t
        · refine ⟨by simpa using h1, ?_⟩
          simp only [hi, ht, Prod.mk.injEq] at h2 ⊢
          simp at h2 ⊢
          omega
        · have ht' : ¬(t = r.sitting_id) := fun h => ht h.symm
          refine ⟨by simpa using h1, ?_⟩
          simp [Prod.mk.injEq, hi, ht, ht'] at h2 ⊢
          omega
      · have hi' : ¬(i = r.item_id) := fun h => hi h.symm
        refine ⟨by simpa using h1, ?_⟩
        simp [Prod.mk.injEq, hi, hi'] at h2 ⊢
        omega
  | finishFail l₁ l₂ c r hr =>
      intro i t
      obtain ⟨h1, h2⟩ := hs i t
      rw [nonFailedCount] at h1 ⊢
      rw [evaluatedCount, commitCount] at h2 ⊢
      simp only [List.countP_append, List.countP_cons] at h1 h2 ⊢
      simp only [hr] at h1 h2 ⊢
      refine ⟨?_, ?_⟩
      · simp at h1 ⊢
        split_ifs at h1 ⊢ <;> omega
      · simpa using h2

/-- Helper: every reachable pipeline state satisfies the at-most-once
invariant. -/
theorem pipeInv_reach {s : PipeState} (h : Reach s) : PipeInv s := by
  induction h with
  | init =>
      intro i t
      refine ⟨?_, ?_⟩ <;>
        simp [nonFailedCount, evaluatedCount, commitCount]
  | step _ hstep ih => exact pipeInv_step ih hstep

/-- Helper: an evaluated record is a non-failed record, count-wise. -/
theorem evaluatedCount_le_nonFailedCount (s : PipeState) (i t : Nat) :
    evaluatedCount s i t ≤ nonFailedCount s i t := by
  rw [evaluatedCount, nonFailedCount]
  apply List.countP_mono_left
  intro r _ h
  simp only [decide_eq_true_eq] at h ⊢
  exact ⟨h.1, h.2.1, by simp [h.2.2]⟩

/-- Helper: every pipeline step preserves the verdict invariant — status
`evaluated` and the verdict are written together in the worker. -/
theorem verdictInv_step {s s' : PipeState} (hs : VerdictInv s)
    (hstep : Step s s') : VerdictInv s' := by
  cases hstep with
  | submit s₀ i' t' a =>
      by_cases hdup : hasNonFailed s i' t' = true
      · simpa [submit, hdup] using hs
      · replace hdup : hasNonFailed s i' t' = false := by simpa using hdup
        intro r hr hev
        simp only [submit, hdup, Bool.false_eq_true, if_false] at hr
        rcases List.mem_cons.mp hr with h | h
        · rw [h] at hev
          cases hev
        · exact hs r h hev
  | pickUp l₁ l₂ c r hr =>
      intro x hx hev
      rcases List.mem_append.mp hx with h | h
      · exact hs x (List.mem_append_left _ h) hev
      · rcases List.mem_cons.mp h with h' | h'
        · rw [h'] at hev
          simp at hev
        · exact hs x (List.mem_append_right _ (List.mem_cons_of_mem r h')) hev
  | finishOk l₁ l₂ c r v hr =>
      intro x hx hev
      rcases List.mem_append.mp hx with h | h
      · exact hs x (List.mem_append_left _ h) hev
      · rcases List.mem_cons.mp h with h' | h'
        · rw [h']
          simp
        · exact hs x (List.mem_append_right _ (List.mem_cons_of_mem r h')) hev
  | finishFail l₁ l₂ c r hr =>
      intro x hx hev
      rcases List.mem_append.mp hx with h | h
      · exact hs x (List.mem_append_left _ h) hev
      · rcases List.mem_cons.mp h with h' | h'
        · rw [h'] at hev
          simp at hev
        · exact hs x (List.mem_append_right _ (List.mem_cons_of_mem r h')) hev

/-- Helper: every reachable pipeline state satisfies the verdict
invariant. -/
theorem verdictInv_reach {s : PipeState} (h : Reach s) : VerdictInv s := by
  induction h with
  | init =>
      intro r hr
      cases hr
  | step _ hstep ih => exact verdictInv_step ih hstep

/-- Helper: `examplePipeState` is reachable — submit the answer, pick it up,
finish it with a correct verdict. -/
theorem reach_examplePipeState : Reach examplePipeState := by
  have h0 : Reach ⟨[], []⟩ := Reach.init
  have h1 : Reach (submit ⟨[], []⟩ 1 2 "x") :=
    Reach.step h0 (Step.submit _ 1 2 "x")
  have h1' : Reach ⟨[⟨0, 1, 2, "x", .pending, none⟩], []⟩ := by
    have he : submit ⟨[], []⟩ 1 2 "x"
        = (⟨[⟨0, 1, 2, "x", .pending, none⟩], []⟩ : PipeState) := by decide
    rw [he] at h1
    exact h1
  have h2 : Reach ⟨[⟨0, 1, 2, "x", .evaluating, none⟩], []⟩ := by
    have hstep := Reach.step h1' (Step.pickUp [] [] []
      ⟨0, 1, 2, "x", .pending, none⟩ rfl)
    simpa using hstep
  have h3 := Reach.step h2 (Step.finishOk [] [] []
      ⟨0, 1, 2, "x", .evaluating, none⟩ .correct rfl)
  simpa [examplePipeState] using h3

/-- C4: a second `submit` for a pair that already has a non-failed
SubmissionRecord is a rejected no-op (the state is unchanged), and in every
reachable pipeline state at most one Scheduler commit is logged per
`(item_id, sitting_id)` — so no sequence of submits for the same pair ever
produces two Scheduler commits. -/
theorem C4_at_most_one_commit_per_pair
    (s₀ : PipeState) (i t : Nat) (a : String)
    (hdup : hasNonFailed s₀ i t = true) :
    submit s₀ i t a = s₀ ∧
    (∀ s, Reach s → ∀ i' t', commitCount s i' t' ≤ 1) := by
  refine ⟨by simp [submit, hdup], ?_⟩
  intro s hs i' t'
  obtain ⟨h1, h2⟩ := pipeInv_reach hs i' t'
  calc commitCount s i' t' = evaluatedCount s i' t' := h2
    _ ≤ nonFailedCount s i' t' := evaluatedCount_le_nonFailedCount s i' t'
    _ ≤ 1 := h1

/-- C4 witness: the theorem applied to a concrete reachable state holding an
evaluated record for the pair. -/
theorem C4_at_most_one_commit_per_pair_witness :
    hasNonFailed examplePipeState 1 2 = true ∧
    (submit examplePipeState 1 2 "y" = examplePipeState ∧
     (∀ s, Reach s → ∀ i' t', commitCount s i' t' ≤ 1)) :=
  ⟨by decide, C4_at_most_one_commit_per_pair examplePipeState 1 2 "y" (by decide)⟩

/-- C6: `getResults` over a reachable pipeline state never pairs an
evaluated record with a null verdict, and for the concrete sitting of five
fully submitted items with one judgment still pending it reports
`evaluated_count = 4`, `pending_count = 1`, while the sitting's completion
stays `awaiting_evaluation`. -/
theorem C6_getResults_counts_and_no_null_verdict
    (s : PipeState) (hreach : Reach s) (t : Nat) :
    (∀ r ∈ sittingRecs s t, r.status = .evaluated → r.verdict ≠ none) ∧
    (getResults fiveItemSitting 7).evaluated_count = 4 ∧
    (getResults fiveItemSitting 7).pending_count = 1 ∧
    completionPhase [1, 2, 3, 4, 5] fiveItemSitting 7 = .awaiting_evaluation := by
  refine ⟨?_, by decide, by decide, by decide⟩
  intro r hr hev
  exact verdictInv_reach hreach r (List.mem_filter.mp hr).1 hev

/-- C6 witness: the theorem applied to the concrete reachable example
state. -/
theorem C6_getResults_counts_and_no_null_verdict_witness :
    (∀ r ∈ sittingRecs examplePipeState 2,
      r.status = .evaluated → r.verdict ≠ none) ∧
    (getResults fiveItemSitting 7).evaluated_count = 4 ∧
    (getResults fiveItemSitting 7).pending_count = 1 ∧
    completionPhase [1, 2, 3, 4, 5] fiveItemSitting 7 = .awaiting_evaluation :=
  C6_getResults_counts_and_no_null_verdict examplePipeState
    reach_examplePipeState 2

/-- Helper: a filter by a disjunction of mutually exclusive predicates is a
permutation of the two separate filters appended. -/
theorem filter_or_perm {α : Type} (p q : α → Bool)
    (hdisj : ∀ x, p x = true → q x = false) :
    ∀ l : List α, List.Perm (l.filter (fun x => p x || q x))
      (l.filter p ++ l.filter q)
  | [] => by simp
  | x :: l => by
      by_cases hp : p x = true
      · have hq : q x = false := hdisj x hp
        simp only [List.filter_cons, hp, hq, Bool.true_or, if_true,
          List.cons_append]
        exact List.Perm.cons x (filter_or_perm p q hdisj l)
      · replace hp : p x = false := by simpa using hp
        by_cases hq : q x = true
        · simp only [List.filter_cons, hp, hq, Bool.false_or, if_true,
            if_false]
          exact (List.Perm.cons x (filter_or_perm p q hdisj l)).trans
            List.perm_middle.symm
        · replace hq : q x = false := by simpa using hq
          simp only [List.filter_cons, hp, hq, Bool.false_or, if_false]
          exact filter_or_perm p q hdisj l

/-- Helper: with distinct pool ids, filtering the due items by pool
membership is a permutation of the flattened per-pool filters. -/
theorem filter_contains_perm_flatten (D : List RItem) :
    ∀ P : List Nat, P.Nodup →
      List.Perm (D.filter (fun it => P.contains it.pool_id))
        ((P.map (fun p =>
          D.filter (fun it => decide (it.pool_id = p)))).flatten)
  | [], _ => by simp
  | p :: P', hnd => by
      obtain ⟨hp, hP'⟩ := List.nodup_cons.mp hnd
      have hcong : D.filter (fun it => (p :: P').contains it.pool_id)
          = D.filter
              (fun it => decide (it.pool_id = p) || P'.contains it.pool_id) := by
        apply List.filter_congr
        intro it _
        simp [List.contains_cons]
      have hdisj : ∀ it : RItem, decide (it.pool_id = p) = true →
          P'.contains it.pool_id = false := by
        intro it hit
        have hit' : it.pool_id = p := by simpa using hit
        rw [hit']
        simpa using hp
      have hsplit := filter_or_perm
        (fun it : RItem => decide (it.pool_id = p))
        (fun it : RItem => P'.contains it.pool_id) hdisj D
      simp only [List.map_cons, List.flatten_cons]
      rw [hcong]
      exact hsplit.trans
        (List.Perm.append_left _ (filter_contains_perm_flatten D P' hP'))

/-- C5: `dueGlobal(owner)` is sorted by the due ordering and is, up to the
order of items with equal keys, exactly the sorted merge of the owner's
per-pool due lists — a permutation of the concatenation of `duePerPool(p)`
over `poolsOf owner`, each item annotated with its originating pool — and
the global due count equals the sum of the per-pool due counts. -/
theorem C5_dueGlobal_is_merge_of_per_pool
    (pools : List Pool) (store : List RItem) (now owner : Nat)
    (hnodup : (poolsOf pools owner).Nodup) :
    List.Pairwise (fun a b : Nat × RItem => DueLE a.2 b.2)
      (dueGlobal pools store now owner) ∧
    List.Perm (dueGlobal pools store now owner)
      (((poolsOf pools owner).map
        (fun p => (duePerPool store now p).map (fun it => (p, it)))).flatten) ∧
    (dueGlobal pools store now owner).length =
      ((poolsOf pools owner).map
        (fun p => (duePerPool store now p).length)).sum := by
  have hsorted : List.Pairwise (fun a b : Nat × RItem => DueLE a.2 b.2)
      (dueGlobal pools store now owner) := by
    apply List.Pairwise.map
    · intro a b hab
      exact hab
    · exact List.sorted_insertionSort DueLE _
  have hstep1 : List.Perm (dueGlobal pools store now owner)
      (((store.filter (isDue now)).filter
          (fun it => (poolsOf pools owner).contains it.pool_id)).map
        (fun it => (it.pool_id, it))) :=
    (List.perm_insertionSort DueLE _).map _
  have hstep2 := (filter_contains_perm_flatten (store.filter (isDue now))
    (poolsOf pools owner) hnodup).map (fun it : RItem => (it.pool_id, it))
  have hptwise : List.Forall₂ List.Perm
      ((poolsOf pools owner).map (fun p =>
        ((store.filter (isDue now)).filter
          (fun it => decide (it.pool_id = p))).map (fun it => (it.pool_id, it))))
      ((poolsOf pools owner).map (fun p =>
        (duePerPool store now p).map (fun it => (p, it)))) := by
    rw [List.forall₂_map_right_iff, List.forall₂_map_left_iff]
    apply List.forall₂_same.mpr
    intro p _
    have hcong : ((store.filter (isDue now)).filter
          (fun it => decide (it.pool_id = p))).map (fun it => (it.pool_id, it))
        = ((store.filter (isDue now)).filter
          (fun it => decide (it.pool_id = p))).map (fun it => (p, it)) := by
      apply List.map_congr_left
      intro it hit
      have hpid : it.pool_id = p := by
        simpa using (List.mem_filter.mp hit).2
      rw [hpid]
    rw [hcong, duePerPool]
    exact ((List.perm_insertionSort DueLE _).map _).symm
  have hflat : ((((poolsOf pools owner).map (fun p =>
        (store.filter (isDue now)).filter
          (fun it => decide (it.pool_id = p)))).flatten).map
        (fun it : RItem => (it.pool_id, it)))
      = ((poolsOf pools owner).map (fun p =>
          ((store.filter (isDue now)).filter
            (fun it => decide (it.pool_id = p))).map
            (fun it => (it.pool_id, it)))).flatten := by
    rw [List.map_flatten, List.map_map]
    rfl
  have hperm : List.Perm (dueGlobal pools store now owner)
      (((poolsOf pools owner).map
        (fun p => (duePerPool store now p).map (fun it => (p, it)))).flatten) := by
    rw [hflat] at hstep2
    exact hstep1.trans (hstep2.trans (List.Perm.flatten_congr hptwise))
  refine ⟨hsorted, hperm, ?_⟩
  rw [hperm.length_eq, List.length_flatten, List.map_map]
  congr 1
  apply List.map_congr_left
  intro p _
  simp

/-- C5 witness: the theorem applied to a concrete owner with two pools and
a concrete item store. -/
theorem C5_dueGlobal_is_merge_of_per_pool_witness :
    (poolsOf [Pool.mk 1 0, Pool.mk 2 0] 0).Nodup ∧
    (List.Pairwise (fun a b : Nat × RItem => DueLE a.2 b.2)
      (dueGlobal [Pool.mk 1 0, Pool.mk 2 0]
        [RItem.mk 10 1 2 5, RItem.mk 11 2 1 3, RItem.mk 12 1 1 9] 6 0) ∧
    List.Perm (dueGlobal [Pool.mk 1 0, Pool.mk 2 0]
        [RItem.mk 10 1 2 5, RItem.mk 11 2 1 3, RItem.mk 12 1 1 9] 6 0)
      (((poolsOf [Pool.mk 1 0, Pool.mk 2 0] 0).map
        (fun p => (duePerPool
          [RItem.mk 10 1 2 5, RItem.mk 11 2 1 3, RItem.mk 12 1 1 9] 6 p).map
          (fun it => (p, it)))).flatten) ∧
    (dueGlobal [Pool.mk 1 0, Pool.mk 2 0]
        [RItem.mk 10 1 2 5, RItem.mk 11 2 1 3, RItem.mk 12 1 1 9] 6 0).length =
      ((poolsOf [Pool.mk 1 0, Pool.mk 2 0] 0).map
        (fun p => (duePerPool
          [RItem.mk 10 1 2 5, RItem.mk 11 2 1 3, RItem.mk 12 1 1 9] 6 p).length)).sum) :=
  ⟨by decide,
   C5_dueGlobal_is_merge_of_per_pool [Pool.mk 1 0, Pool.mk 2 0]
     [RItem.mk 10 1 2 5, RItem.mk 11 2 1 3, RItem.mk 12 1 1 9] 6 0 (by decide)⟩

end GoLearn
